import Mathlib

/- Verification development for the email-agent query route.
   The definitions below are a shallow embedding of the TypeScript source:
   pure string manipulation is modelled over `List Char`, external services
   (mail store, message fetch, reasoning service, number formatting) are
   modelled as explicit function parameters, and JavaScript truthiness is
   made explicit wherever the source relies on it. -/

namespace EmailAgent

/-- JavaScript whitespace class `\s` restricted to the code points this
code base can meet (ASCII whitespace and NBSP). -/
def jsSpace (c : Char) : Bool :=
  c == ' ' || c == '\t' || c == '\n' || c == '\r' || c == '\x0b' || c == '\x0c' || c == ' '

/-- Lower-casing a string, modelling `String.prototype.toLowerCase` on the
ASCII range (`Char.toLower` is the identity beyond ASCII). -/
def lowerStr (s : String) : String :=
  (s.data.map Char.toLower).asString

/-- Does the character list start with the given pattern (case-sensitive)? -/
def startsWithL : List Char → List Char → Bool
  | [], _ => true
  | _ :: _, [] => false
  | p :: ps, c :: cs => p == c && startsWithL ps cs

/-- Splitting a character list at every occurrence of a separator character,
modelling `String.prototype.split(sep)` (empty pieces are kept). -/
def splitOnCharAux (sep : Char) : List Char → List Char → List (List Char)
  | acc, [] => [acc.reverse]
  | acc, c :: cs =>
    if c == sep then acc.reverse :: splitOnCharAux sep [] cs
    else splitOnCharAux sep (c :: acc) cs

def splitOnChar (sep : Char) (l : List Char) : List (List Char) :=
  splitOnCharAux sep [] l

/-- JavaScript `String.prototype.trim`: drop leading and trailing whitespace. -/
def trimJS (l : List Char) : List Char :=
  ((l.dropWhile (fun c => jsSpace c)).reverse.dropWhile (fun c => jsSpace c)).reverse

/-- Interleaving a separator between list elements, modelling `Array.join`. -/
def joinWith (sep : List Char) : List (List Char) → List Char
  | [] => []
  | [x] => x
  | x :: y :: rest => x ++ sep ++ joinWith sep (y :: rest)

/- ===== Search Executor (searchEmails), query construction ===== -/

/-- The field operators recognised by the Gmail-operator-preserving regex
`(newer_than|older_than|after|before|from|to|subject|in|has|is|label):[^\s]+`
in `searchEmails`, in the source's alternation order. -/
def opNames : List (List Char) :=
  ["newer_than".data, "older_than".data, "after".data, "before".data, "from".data,
   "to".data, "subject".data, "in".data, "has".data, "is".data, "label".data]

/-- Does one of the recognised operators, followed by `:` and at least one
non-whitespace character, occur at the head of the character list? -/
def opMatchHere (cs : List Char) : Bool :=
  opNames.any (fun op =>
    startsWithL (op ++ [':']) cs &&
      (match cs.drop (op.length + 1) with
       | [] => false
       | c :: _ => !jsSpace c))

/-- Scan every position of the list for an operator occurrence; this is the
embedding of `query.match(/(...):[^\s]+/g)` being non-null. -/
def hasOpFrom : List Char → Bool
  | [] => false
  | c :: cs => opMatchHere (c :: cs) || hasOpFrom cs

/-- Whether the query contains a recognised Gmail field operator. -/
def containsOperator (q : String) : Bool :=
  hasOpFrom q.data

/-- Tier-1 query of `searchEmails`: pass the query through unchanged when it
carries a recognised operator, otherwise wrap it in double quotes. -/
def tier1Query (q : String) : String :=
  if containsOperator q then q else "\"" ++ q ++ "\""

/-- The characters removed by `query.replace(/[():"]/g, ' ')`. -/
def tier2Stripped (c : Char) : Char :=
  if c == '(' || c == ')' || c == ':' || c == '"' then ' ' else c

/-- Tier-2 query of `searchEmails`: replace `( ) : "` by spaces, split on
single spaces, keep tokens longer than one character, join with ` OR `. -/
def tier2Query (q : String) : String :=
  (joinWith " OR ".data
    ((splitOnChar ' ' (q.data.map tier2Stripped)).filter (fun t => 1 < t.length))).asString

/-- Specification-side reading of "the query contains a recognised field
operator followed by a non-space value": some operator name, a colon and a
non-whitespace character occur contiguously somewhere in the query. -/
def SpecHasOperator (q : String) : Prop :=
  ∃ (pre suf : List Char) (op : List Char) (c : Char),
    q.data = pre ++ op ++ [':'] ++ c :: suf ∧ op ∈ opNames ∧ jsSpace c = false

end EmailAgent

namespace EmailAgent

/- ===== Message Parser (parseEmailData) ===== -/

/-- Outcome of base64-decoding one part's `body.data` (the decoding itself is
done by an external library; a thrown decode error is caught and the fragment
skipped). `ok s` carries the decoded text. -/
inductive DecodeResult where
  | ok (s : String)
  | fail
deriving DecidableEq

/- A node of the MIME part tree: an optional body payload and a list of
sub-parts (an absent `parts` array is modelled as the empty list). The list
is fused into the inductive so that the body walk is structurally
recursive. -/
mutual
inductive GPart where
  | node : Option DecodeResult → GPartList → GPart
inductive GPartList where
  | nil : GPartList
  | cons : GPart → GPartList → GPartList
end

structure Header where
  name : String
  value : String
deriving DecidableEq

/-- A raw mail-store message: optional payload (headers plus part tree) and
optional snippet. -/
structure RawMessage where
  payload : Option (List Header × GPart)
  snippet : Option String

/-- Strip control characters, the embedding of
`content.replace(/[\u0000-\u001F\u007F-\u009F]/g, "")`. -/
def stripCtl (l : List Char) : List Char :=
  l.filter (fun c => !(c.toNat ≤ 31 || (127 ≤ c.toNat && c.toNat ≤ 159)))

/- Depth-first body accumulation of `getBodyContent`: each decodable body
payload contributes its control-stripped text plus a newline, then the
sub-parts are walked in order; failed decodes are skipped. -/
mutual
def partBody : GPart → List Char
  | .node d ps =>
    (match d with
     | some (.ok s) => stripCtl s.data ++ ['\n']
     | _ => []) ++ partsBody ps
def partsBody : GPartList → List Char
  | .nil => []
  | .cons p ps => partBody p ++ partsBody ps
end

/-- The full decoded body of a message (empty when there is no payload). -/
def rawBodyOf (m : RawMessage) : List Char :=
  match m.payload with
  | some (_, root) => partBody root
  | none => []

/-- Header lookup with JavaScript truthiness:
`headers.find(h => h.name === name)?.value || dflt`. -/
def headerValue (headers : List Header) (name dflt : String) : String :=
  match headers.find? (fun h => h.name == name) with
  | some h => if h.value == "" then dflt else h.value
  | none => dflt

/-- The content value before truncation: trimmed decoded body, with
truthiness fallback to the snippet and then to the literal
`"No content available"` (`body.trim() || emailData.snippet || "No content
available"`). -/
def contentPreTrunc (m : RawMessage) : List Char :=
  let body := trimJS (rawBodyOf m)
  if body ≠ [] then body
  else
    match m.snippet with
    | some s => if s.data ≠ [] then s.data else "No content available".data
    | none => "No content available".data

/-- The `Content` value of a parsed message: the pre-truncation content,
truncated to 200 characters plus `"..."` when longer than 200. -/
def emailContent (m : RawMessage) : String :=
  let content := contentPreTrunc m
  (if 200 < content.length then content.take 200 ++ "...".data else content).asString

/-- The embedding of `parseEmailData`: the four-line textual summary. -/
def parseEmailData (m : RawMessage) : String :=
  let headers := match m.payload with | some (hs, _) => hs | none => []
  let subject := headerValue headers "Subject" "No Subject"
  let sender := headerValue headers "From" "Unknown Sender"
  let date := headerValue headers "Date" "No Date"
  "From: " ++ sender ++ "\nSubject: " ++ subject ++ "\nDate: " ++ date ++ "\nContent: "
    ++ emailContent m

/-- Specification-side content fallback, following the amended wording of
the content claim: the decoded body (trimmed) when non-empty, else the
snippet when present and non-empty, else `"No content available"`. -/
def specContentPre (m : RawMessage) : String :=
  if (trimJS (rawBodyOf m)).asString ≠ "" then (trimJS (rawBodyOf m)).asString
  else
    match m.snippet with
    | some s => if s ≠ "" then s else "No content available"
    | none => "No content available"

/-- Specification-side content computation: the fallback content, emitted
unchanged when at most 200 characters, otherwise exactly its first 200
characters followed by `"..."`. -/
def specContentAmended (m : RawMessage) : String :=
  let c := specContentPre m
  if 200 < c.length then (c.data.take 200).asString ++ "..." else c

/- ===== Search Executor (searchEmails) ===== -/

/-- The fetch-and-parse loop over returned message ids: skip already processed
ids, parse each fetched message, and stop as soon as five summaries are
collected. `search` and `getMsg` model the mail store. -/
def processIds (getMsg : String → RawMessage) :
    List String → List String → List String → List String
  | _, acc, [] => acc
  | seen, acc, mid :: rest =>
    if mid ∈ seen then processIds getMsg seen acc rest
    else
      let acc2 := acc ++ [parseEmailData (getMsg mid)]
      if 5 ≤ acc2.length then acc2
      else processIds getMsg (mid :: seen) acc2 rest

/-- The embedding of `searchEmails`, instrumented with the list of query
strings actually sent to the mail store: the tier-1 query always, and the
tier-2 query exactly when tier 1 returned no message ids. Returns
(issued queries, email summaries). -/
def searchEmailsTrace (search : String → List String) (getMsg : String → RawMessage)
    (q : String) : List String × List String :=
  let q1 := tier1Query q
  let r1 := search q1
  if r1 ≠ [] then ([q1], processIds getMsg [] [] r1)
  else
    let q2 := tier2Query q
    let r2 := search q2
    if r2 ≠ [] then ([q1, q2], processIds getMsg [] [] r2)
    else ([q1, q2], [])

/-- The summaries returned by `searchEmails`. -/
def searchEmails (search : String → List String) (getMsg : String → RawMessage)
    (q : String) : List String :=
  (searchEmailsTrace search getMsg q).2

end EmailAgent

namespace EmailAgent

/- ===== Amount Aggregator (calculateSum) ===== -/

/-- Case-insensitive literal match at the head of the list (the money
patterns carry the `i` flag); returns the actually consumed characters. -/
def matchCI : List Char → List Char → Option (List Char × List Char)
  | [], cs => some ([], cs)
  | _ :: _, [] => none
  | p :: ps, c :: cs =>
    if p.toLower == c.toLower then
      match matchCI ps cs with
      | some (tk, rest) => some (c :: tk, rest)
      | none => none
    else none

/-- Case-sensitive literal match at the head of the list. -/
def matchCS : List Char → List Char → Option (List Char × List Char)
  | [], cs => some ([], cs)
  | _ :: _, [] => false |> fun _ => none
  | p :: ps, c :: cs =>
    if p == c then
      match matchCS ps cs with
      | some (tk, rest) => some (c :: tk, rest)
      | none => none
    else none

/-- Currency alternation `₹|Rs\.?|INR|USD|\$` with the `i` flag, in source
order; `Rs\.?` greedily includes the dot (when the dot variant succeeds but
the continuation fails, the dotless variant fails too, because `.` is
neither whitespace nor a digit or comma, so no backtracking is needed). -/
def matchCurrencyCI (cs : List Char) : Option (List Char × List Char) :=
  match matchCI "₹".data cs with
  | some r => some r
  | none =>
  match matchCI "Rs.".data cs with
  | some r => some r
  | none =>
  match matchCI "Rs".data cs with
  | some r => some r
  | none =>
  match matchCI "INR".data cs with
  | some r => some r
  | none =>
  match matchCI "USD".data cs with
  | some r => some r
  | none => matchCI "$".data cs

/-- Case-sensitive currency alternation, used on the full match text by
`fullMatch.match(/₹|Rs\.?|INR|USD|\$/)` (no `i` flag there). -/
def matchCurrencyCS (cs : List Char) : Option (List Char × List Char) :=
  match matchCS "₹".data cs with
  | some r => some r
  | none =>
  match matchCS "Rs.".data cs with
  | some r => some r
  | none =>
  match matchCS "Rs".data cs with
  | some r => some r
  | none =>
  match matchCS "INR".data cs with
  | some r => some r
  | none =>
  match matchCS "USD".data cs with
  | some r => some r
  | none => matchCS "$".data cs

/-- First case-sensitive currency occurrence in a full match text, or the
empty string (`|| ['']` in the source). -/
def firstCurrencyCS : List Char → List Char
  | [] => []
  | c :: cs =>
    match matchCurrencyCS (c :: cs) with
    | some (tk, _) => tk
    | none => firstCurrencyCS cs

/-- The captured amount group `([0-9,]+(?:\.[0-9]+)?)`: a non-empty greedy
run of digits and commas, optionally followed by a dot and a non-empty
greedy digit run. -/
def matchAmount (cs : List Char) : Option (List Char × List Char) :=
  let dc := cs.takeWhile (fun c => c.isDigit || c == ',')
  if dc.isEmpty then none
  else
    let rest := cs.drop dc.length
    match rest with
    | '.' :: r2 =>
      let ds := r2.takeWhile Char.isDigit
      if ds.isEmpty then some (dc, rest)
      else some (dc ++ '.' :: ds, r2.drop ds.length)
    | _ => some (dc, rest)

/-- Keyword alternation (case-insensitive), tried in source order; the
keyword sets used here have pairwise distinct first letters, so first-match
order equals regex alternation order. -/
def matchKwCI (kws : List (List Char)) (cs : List Char) : Option (List Char × List Char) :=
  match kws with
  | [] => none
  | k :: rest =>
    match matchCI k cs with
    | some r => some r
    | none => matchKwCI rest cs

def flightKws : List (List Char) :=
  ["total".data, "amount".data, "fare".data, "price".data, "cost".data]

def subscriptionKws : List (List Char) :=
  ["monthly".data, "yearly".data, "annual".data, "subscription".data, "plan".data, "fee".data]

/-- Anchored match of `(?:₹|Rs\.?|INR|USD|\$)\s*([0-9,]+(?:\.[0-9]+)?)`:
returns (full match, captured group, remainder). -/
def matchPlainAt (cs : List Char) : Option (List Char × List Char × List Char) :=
  match matchCurrencyCI cs with
  | none => none
  | some (cur, r1) =>
    let sp := r1.takeWhile (fun c => jsSpace c)
    let r2 := r1.drop sp.length
    match matchAmount r2 with
    | none => none
    | some (grp, r3) => some (cur ++ sp ++ grp, grp, r3)

/-- Anchored match with the trailing `(?:[^0-9]|$)` of the flight and
subscription bare-currency patterns. -/
def matchPlainTailAt (cs : List Char) : Option (List Char × List Char × List Char) :=
  match matchPlainAt cs with
  | none => none
  | some (full, grp, r3) =>
    match r3 with
    | [] => some (full, grp, [])
    | c :: r4 => if c.isDigit then none else some (full ++ [c], grp, r4)

/-- Anchored match of `(?:kw1|...)(?:[:\s])*` followed by the bare
currency-amount pattern. -/
def matchKwAt (kws : List (List Char)) (cs : List Char) :
    Option (List Char × List Char × List Char) :=
  match matchKwCI kws cs with
  | none => none
  | some (kw, r1) =>
    let mid := r1.takeWhile (fun c => c == ':' || jsSpace c)
    let r2 := r1.drop mid.length
    match matchPlainAt r2 with
    | some (f2, grp, r3) => some (kw ++ mid ++ f2, grp, r3)
    | none => none

/-- The three regular-expression shapes appearing in `patterns`. -/
inductive MoneyPat where
  | plain
  | plainTail
  | keyword (kws : List (List Char))

def patMatchAt : MoneyPat → List Char → Option (List Char × List Char × List Char)
  | .plain, cs => matchPlainAt cs
  | .plainTail, cs => matchPlainTailAt cs
  | .keyword kws, cs => matchKwAt kws cs

/-- Fueled scan implementing `String.prototype.matchAll`: try the pattern at
every position, and resume after the end of each (non-empty) match. -/
def scanAux (pat : MoneyPat) : Nat → List Char → List (List Char × List Char)
  | 0, _ => []
  | _ + 1, [] => []
  | n + 1, c :: cs =>
    match patMatchAt pat (c :: cs) with
    | some (full, grp, rest) => (full, grp) :: scanAux pat n rest
    | none => scanAux pat n cs

/-- All matches of one pattern over a text, in order. -/
def scanPat (pat : MoneyPat) (s : List Char) : List (List Char × List Char) :=
  scanAux pat s.length s

/-- `Object.keys(patterns)` in insertion order. -/
def patternKeys : List String := ["default", "flight", "subscription"]

/-- Substring test, modelling `String.prototype.includes`. -/
def occursIn (needle : List Char) : List Char → Bool
  | [] => startsWithL needle []
  | c :: cs => startsWithL needle (c :: cs) || occursIn needle cs

/-- Category-key selection: the first known key contained in the lower-cased
category, defaulting to `"default"`. -/
def categoryKeyFor (category : String) : String :=
  (patternKeys.find? (fun k => occursIn k.data (lowerStr category).data)).getD "default"

/-- The ordered pattern list for a category. -/
def patternsFor (category : String) : List MoneyPat :=
  if categoryKeyFor category == "flight" then [.keyword flightKws, .plainTail]
  else if categoryKeyFor category == "subscription" then [.keyword subscriptionKws, .plainTail]
  else [.plain]

/-- Comma stripping, `amount.replace(/,/g, '')`. -/
def stripCommas (l : List Char) : List Char :=
  l.filter (fun c => c != ',')

def digitsToNat (l : List Char) : Nat :=
  l.foldl (fun n c => 10 * n + (c.toNat - 48)) 0

/-- `parseFloat` on the comma-stripped capture group: none models `NaN`. -/
def parseAmount (l : List Char) : Option ℚ :=
  let ip := l.takeWhile Char.isDigit
  let r := l.drop ip.length
  match r with
  | '.' :: r2 =>
    let fp := r2.takeWhile Char.isDigit
    if ip.isEmpty && fp.isEmpty then none
    else some ((digitsToNat ip : ℚ) + (digitsToNat fp : ℚ) / ((10 : ℚ) ^ fp.length))
  | _ => if ip.isEmpty then none else some ((digitsToNat ip : ℚ))

structure SumDetail where
  sender : String
  subject : String
  date : String
  amount : ℚ
  currency : String
  text : String
deriving DecidableEq

structure SumState where
  counts : List (String × Nat)
  details : List SumDetail
  total : ℚ
deriving DecidableEq

/-- Currency frequency bump (`currencyCounts[currency] = (... || 0) + 1`),
preserving object-key insertion order. -/
def bumpCount : List (String × Nat) → String → List (String × Nat)
  | [], c => [(c, 1)]
  | (k, n) :: rest, c =>
    if k == c then (k, n + 1) :: rest else (k, n) :: bumpCount rest c

structure EmailMeta where
  sender : String
  subject : String
  date : String
  content : String
deriving DecidableEq

/-- Field of the first line with the given marker, cut after the marker and
a space (`lines.find(l => l.startsWith(m))?.substring(n) || ''`). -/
def lineField (lines : List (List Char)) (pre : List Char) (n : Nat) : String :=
  match lines.find? (fun l => startsWithL pre l) with
  | some l => (l.drop n).asString
  | none => ""

def metaOf (email : String) : EmailMeta :=
  let lines := splitOnChar '\n' email.data
  { sender := lineField lines "From:".data 6
    subject := lineField lines "Subject:".data 9
    date := lineField lines "Date:".data 6
    content := lineField lines "Content:".data 9 }

/-- The text scanned for amounts: subject and content joined by a space. -/
def searchTextOf (email : String) : List Char :=
  (metaOf email).subject.data ++ [' '] ++ (metaOf email).content.data

/-- Processing of a single regex match: count its currency symbol, then add
the parsed amount to the running total and details unless parsing yields
`NaN`. -/
def processMatch (meta : EmailMeta) (st : SumState) (m : List Char × List Char) : SumState :=
  let cur := (firstCurrencyCS m.1).asString
  let counts := bumpCount st.counts cur
  match parseAmount (stripCommas m.2) with
  | some a =>
    let d : SumDetail :=
      ⟨meta.sender, meta.subject, meta.date, a, cur, m.1.asString⟩
    { counts := counts, details := st.details ++ [d], total := st.total + a }
  | none => { st with counts := counts }

def processEmail (pats : List MoneyPat) (st : SumState) (email : String) : SumState :=
  pats.foldl (fun st1 p => (scanPat p (searchTextOf email)).foldl (processMatch (metaOf email)) st1) st

/-- The mutable state of `calculateSum` after scanning all emails. -/
def sumScan (emails : List String) (category : String) : SumState :=
  emails.foldl (processEmail (patternsFor category)) ⟨[], [], 0⟩

/-- Dominant currency: the first key reaching the maximal strictly-greater
count (ties keep the earlier key). -/
def dominantCurrency (counts : List (String × Nat)) : String :=
  (counts.foldl (fun acc kc => if acc.2 < kc.2 then kc else acc) ("", 0)).1

structure AggregationResult where
  total : ℚ
  currency : String
  details : List SumDetail
deriving DecidableEq

/-- The embedding of `calculateSum`. -/
def calculateSum (emails : List String) (category : String) : AggregationResult :=
  let st := sumScan emails category
  { total := st.total
    currency := if dominantCurrency st.counts == "" then "₹" else dominantCurrency st.counts
    details := st.details }

/-- All matches contributing to one `calculateSum` run, in processing order
(emails outermost, then the category's patterns, then text positions). -/
def allMatches (emails : List String) (category : String) : List (List Char × List Char) :=
  emails.flatMap (fun e => (patternsFor category).flatMap (fun p => scanPat p (searchTextOf e)))

end EmailAgent

deriving instance DecidableEq for EmailAgent.MoneyPat

namespace EmailAgent

/- ===== Reasoning Gateway (callAgentWithRetry) and Agent Loop ===== -/

inductive ActionTag where
  | search
  | refine
  | final
  | sum
deriving DecidableEq

/-- The runtime value found under the `final` key: the boolean flag shape or
the nested `{finalAnswer: ...}` object shape (the code only ever reads its
`finalAnswer` property; an object is always truthy). -/
inductive FinalField where
  | boolVal (b : Bool)
  | objVal (finalAnswer : String)
deriving DecidableEq

structure SearchField where
  query : String
deriving DecidableEq

/-- The `sum` key's nested object; the optional `pattern` member is never
read by the code and is omitted. -/
structure SumField where
  category : String
deriving DecidableEq

/-- The `AgentPlan` record as parsed from the reasoning service's JSON:
every field is optional, exactly as in the TypeScript interface. -/
structure AgentPlan where
  action : Option ActionTag := none
  query : Option String := none
  finalAnswer : Option String := none
  sumCategory : Option String := none
  final : Option FinalField := none
  search : Option SearchField := none
  refine : Option SearchField := none
  sum : Option SumField := none
deriving DecidableEq

/-- JavaScript truthiness of an optional string (absent or empty is falsy). -/
def optTruthy : Option String → Bool
  | some s => s != ""
  | none => false

/-- `a || b` for an optional string and a fallback. -/
def strOr (o : Option String) (dflt : String) : String :=
  match o with
  | some s => if s == "" then dflt else s
  | none => dflt

/-- One reasoning-service call, as seen after response extraction and JSON
parsing: either a parsed plan or an error that is (`true`) or is not
(`false`) the transient-overload signal (status 529 / overloaded marker). -/
inductive ApiResult where
  | ok (plan : AgentPlan)
  | err (overloaded : Bool)
deriving DecidableEq

/-- Outcome of `callAgentWithRetry`. -/
inductive CawrOut where
  | ok (plan : AgentPlan)
  | thrown
  | fuelOut
deriving DecidableEq

/-- Instrumented result of `callAgentWithRetry`: outcome, next reasoning-call
index, updated previously-tried-query set, number of reasoning calls made,
and the list of backoff delays computed (in milliseconds). -/
structure CawrTrace where
  out : CawrOut
  next : Nat
  prev : List String
  calls : Nat
  delays : List ℚ
deriving DecidableEq

/-- The generic answer substituted when `forceFinal` overrides a non-final
plan that carries no answer. -/
def noInfoAnswer : String :=
  "Based on the available emails, I couldn't find specific information about your query. Please try a different search term."

/-- The apology answer returned after exhausting all retries. -/
def overloadApology : String :=
  "I'm having trouble processing your request. Based on the available information, I couldn't determine a specific answer."

/-- The synthetic `Final` plan returned when retries are exhausted. -/
def exhaustedPlan : AgentPlan :=
  { action := some .final, finalAnswer := some overloadApology }

/-- The `forceFinal` override: force the action to `final`, synthesising the
generic answer when none was supplied. -/
def applyForceFinal (forceFinal : Bool) (p : AgentPlan) : AgentPlan :=
  if forceFinal && !(p.action == some .final) then
    let p1 : AgentPlan := { p with action := some .final }
    if optTruthy p1.finalAnswer then p1 else { p1 with finalAnswer := some noInfoAnswer }
  else p

/-- The embedding of `callAgentWithRetry`. The reasoning service is the
call-indexed oracle `api`; `jit` is the random jitter drawn before each
backoff sleep (`Math.random() * 1000`). `retries` and `maxRetries` mirror
the source variables; the prompt only influences the reasoning service and
is therefore not carried. The repeated-query path re-enters the function
with `maxRetries - retries`, exactly as the source's recursive call; `fuel`
bounds that otherwise unbounded recursion. -/
def cawrAux (api : Nat → ApiResult) (jit : Nat → ℚ) :
    Nat → Nat → List String → Nat → Nat → Bool → CawrTrace
  | 0, idx, prev, _, _, _ => ⟨.fuelOut, idx, prev, 0, []⟩
  | fuel + 1, idx, prev, retries, maxRetries, forceFinal =>
    if retries < maxRetries then
      match api idx with
      | .ok plan =>
        if (plan.action == some .search || plan.action == some .refine)
            && optTruthy plan.query then
          let q := lowerStr (plan.query.getD "")
          if q ∈ prev then
            let t := cawrAux api jit fuel (idx + 1) prev 0 (maxRetries - retries) forceFinal
            { t with calls := t.calls + 1 }
          else
            ⟨.ok (applyForceFinal forceFinal plan), idx + 1, q :: prev, 1, []⟩
        else
          ⟨.ok (applyForceFinal forceFinal plan), idx + 1, prev, 1, []⟩
      | .err ov =>
        if ov then
          if maxRetries ≤ retries + 1 then ⟨.ok exhaustedPlan, idx + 1, prev, 1, []⟩
          else
            let d := min (1000 * 2 ^ (retries + 1) + jit idx) 10000
            let t := cawrAux api jit fuel (idx + 1) prev (retries + 1) maxRetries forceFinal
            ⟨t.out, t.next, t.prev, t.calls + 1, d :: t.delays⟩
        else ⟨.thrown, idx + 1, prev, 1, []⟩
    else ⟨.ok exhaustedPlan, idx, prev, 0, []⟩

/-- `callAgent`'s use of the gateway: three total attempts. -/
def callAgentGW (api : Nat → ApiResult) (jit : Nat → ℚ) (fuel idx : Nat)
    (prev : List String) (forceFinal : Bool) : CawrTrace :=
  cawrAux api jit fuel idx prev 0 3 forceFinal

/-- The response-shape normalisation block at the top of the agent loop
body: boolean `final` flag, nested `search`/`refine` objects, and the nested
`final` object, each rewritten to the canonical tagged form only when no
action tag is present; the four rewrites are applied in source order. -/
def normalizePlan (p : AgentPlan) : AgentPlan :=
  let p1 := if p.final == some (.boolVal true) && p.action == none
    then { p with action := some .final } else p
  let p2 := if (match p1.search with | some s => s.query != "" | none => false)
      && p1.action == none
    then { p1 with action := some .search, query := some ((p1.search.map SearchField.query).getD "") }
    else p1
  let p3 := if (match p2.refine with | some s => s.query != "" | none => false)
      && p2.action == none
    then { p2 with action := some .refine, query := some ((p2.refine.map SearchField.query).getD "") }
    else p2
  match p3.final, p3.action with
  | some (.objVal a), none => { p3 with action := some .final, finalAnswer := some a }
  | _, _ => p3

inductive LoopErr where
  | missingQuery
  | finalNoAnswer
  | unrecognizedAction
  | apiThrown
  | noAnswerAfterMax
deriving DecidableEq

inductive LoopOut where
  | ok (answer : String) (emails : List String)
  | err (e : LoopErr)
  | fuelOut
deriving DecidableEq

/-- Instrumented outcome of the agent loop: result, final value of the
`iterations` counter, and the queries passed to `searchEmails` from the
search/refine branch, each tagged with whether the plan already carried its
`search`/`refine` action tag when the gateway returned it (`true`) or was
normalised from a nested shape (`false`). -/
structure LoopTrace where
  out : LoopOut
  iters : Nat
  searches : List (String × Bool)
deriving DecidableEq

/-- Session state threaded through the loop. -/
structure LoopState where
  current : Option (List String)
  allSeen : List String
  prev : List String
  idx : Nat

/-- JavaScript truthiness test of the loop's guard
`!currentEmails || currentEmails.length === 0`. -/
def hasEmails : Option (List String) → Bool
  | some l => !l.isEmpty
  | none => false

def maxIterAnswer : String :=
  "I found some potentially relevant emails but couldn't determine a specific answer. Please review these emails for the information you're looking for."

/-- The body of `agentSolveQuery`'s while loop. `ofuel` bounds the recursion
(the loop itself exits once `iterations` reaches 5); `innerFuel` is handed
to each gateway call. `store`, `getMsg` model the mail store and `fmt`
models `Number.prototype.toLocaleString('en-IN', ...)` (an external library
call whose exact rendering no property here depends on). -/
def agentLoopAux (api : Nat → ApiResult) (jit : Nat → ℚ)
    (store : String → List String) (getMsg : String → RawMessage) (fmt : ℚ → String)
    (innerFuel : Nat) : Nat → Nat → LoopState → LoopTrace
  | 0, iterations, _ => ⟨.fuelOut, iterations, []⟩
  | ofuel + 1, iterations, st =>
    if iterations < 5 then
      let forceFinal := iterations == 5 - 1
      let current :=
        if !hasEmails st.current && !st.allSeen.isEmpty
        then some (st.allSeen.take 5) else st.current
      let t := callAgentGW api jit innerFuel st.idx st.prev forceFinal
      match t.out with
      | .fuelOut => ⟨.fuelOut, iterations, []⟩
      | .thrown => ⟨.err .apiThrown, iterations, []⟩
      | .ok plan0 =>
        let canonical := plan0.action == some .search || plan0.action == some .refine
        let plan := normalizePlan plan0
        match plan.action with
        | some .search | some .refine =>
          (match plan.query with
           | none => ⟨.err .missingQuery, iterations, []⟩
           | some q =>
             if q == "" then ⟨.err .missingQuery, iterations, []⟩
             else
               let results := searchEmails store getMsg q
               let allSeen := st.allSeen ++ results
               let current1 :=
                 if results.isEmpty && !allSeen.isEmpty then allSeen.take 5 else results
               let rec1 := agentLoopAux api jit store getMsg fmt innerFuel ofuel
                 (iterations + 1) ⟨some current1, allSeen, t.prev, t.next⟩
               ⟨rec1.out, rec1.iters, (q, canonical) :: rec1.searches⟩)
        | some .sum =>
          let current1 :=
            if !hasEmails current then
              searchEmails store getMsg (strOr plan.sumCategory (strOr plan.query "default"))
            else current.getD []
          let category := strOr plan.sumCategory
            (strOr (plan.sum.map SumField.category) "default")
          let sumResult := calculateSum current1 category
          let formatted := "Based on the emails, the total " ++ category ++ " amount is "
            ++ sumResult.currency ++ fmt sumResult.total
          let current2 := ("CALCULATED SUM: " ++ formatted) :: current1
          agentLoopAux api jit store getMsg fmt innerFuel ofuel (iterations + 1)
            ⟨some current2, st.allSeen, t.prev, t.next⟩
        | some .final =>
          match plan.finalAnswer with
          | some a =>
            if a != "" then ⟨.ok a (current.getD []), iterations, []⟩
            else ⟨.err .finalNoAnswer, iterations, []⟩
          | none => ⟨.err .finalNoAnswer, iterations, []⟩
        | none => ⟨.err .unrecognizedAction, iterations, []⟩
    else
      if !st.allSeen.isEmpty then ⟨.ok maxIterAnswer (st.allSeen.take 5), iterations, []⟩
      else ⟨.err .noAnswerAfterMax, iterations, []⟩

/-- The embedding of `agentSolveQuery`: the tried-query set is reset to
empty, iteration state starts fresh, and the loop may visit its guard at
most six times (five passes plus the exhausted check), so an outer bound of
6 is exact. -/
def agentSolveQuery (api : Nat → ApiResult) (jit : Nat → ℚ)
    (store : String → List String) (getMsg : String → RawMessage) (fmt : ℚ → String)
    (innerFuel : Nat) : LoopTrace :=
  agentLoopAux api jit store getMsg fmt innerFuel 6 0 ⟨none, [], [], 0⟩

end EmailAgent

namespace EmailAgent

/-- The queries of the canonically-tagged (non-normalised) search/refine
trace entries, in issue order. -/
def canonicalQueries (xs : List (String × Bool)) : List String :=
  (xs.filter (fun e => e.2)).map Prod.fst

/-- Shape of every captured amount group: a non-empty digit/comma run,
optionally followed by a dot and a non-empty digit run. -/
def GroupForm (grp : List Char) : Prop :=
  ∃ dc ds, grp = dc ++ ds ∧ dc ≠ [] ∧ (∀ c ∈ dc, c.isDigit = true ∨ c = ',') ∧
    (ds = [] ∨ ∃ fs, ds = '.' :: fs ∧ fs ≠ [] ∧ ∀ c ∈ fs, c.isDigit = true)

/- ===== Query endpoint POST handler ===== -/

/-- The `token` object of the request body. -/
structure TokenPair where
  accessToken : Option String
  refreshToken : Option String
deriving DecidableEq

/-- The parsed JSON request body `{query, token}`. -/
structure ReqBody where
  query : String
  token : Option TokenPair
deriving DecidableEq

/-- The JSON response body: only the keys this handler ever emits. -/
structure JsonResponse where
  answer : Option String := none
  message : Option String := none
  error : Option String := none
  emails : Option (List String) := none
deriving DecidableEq

structure HttpResponse where
  status : Nat
  body : JsonResponse
deriving DecidableEq

/-- Failure of the downstream pipeline (token refresh, mail store, agent
loop), as classified by the handler's catch block: the insufficient-scope
error (`code 403` with a Metadata-scope message) versus anything else. -/
inductive UpstreamErr where
  | scopeErr
  | other (msg : String)
deriving DecidableEq

/-- The embedding of the route's `POST` handler. Everything from credential
refresh onward is modelled by the `pipeline` oracle, whose `ok` value is the
agent result `(answer, emails)`. -/
def postHandler (body : ReqBody) (pipeline : Except UpstreamErr (String × List String)) :
    HttpResponse :=
  match body.token with
  | none => ⟨401, { message := some "Authentication required" }⟩
  | some tok =>
    match tok.refreshToken with
    | none =>
      ⟨500, { answer := some "An error occurred while processing your query.",
              error := some "Refresh token is missing!" }⟩
    | some rt =>
      if rt == "" then
        ⟨500, { answer := some "An error occurred while processing your query.",
                error := some "Refresh token is missing!" }⟩
      else
        match pipeline with
        | .ok (ans, emails) => ⟨200, { answer := some ans, emails := some emails }⟩
        | .error .scopeErr =>
          ⟨403, { answer := some "Authentication error: Please re-authenticate with full email access permissions.",
                  error := some "Insufficient OAuth scopes" }⟩
        | .error (.other msg) =>
          ⟨500, { answer := some "An error occurred while processing your query.",
                  error := some msg }⟩

end EmailAgent

namespace EmailAgent

/- ===== Theorems ===== -/

theorem startsWithL_iff (p : List Char) : ∀ l, startsWithL p l = true ↔ ∃ rest, l = p ++ rest := by
  induction p with
  | nil => intro l; simp [startsWithL]
  | cons a ps ih =>
    intro l
    cases l with
    | nil =>
      simp [startsWithL]
    | cons c cs =>
      rw [startsWithL, Bool.and_eq_true, beq_iff_eq, ih]
      constructor
      · rintro ⟨rfl, rest, rfl⟩
        exact ⟨rest, rfl⟩
      · rintro ⟨rest, hr⟩
        injection hr with h1 h2
        exact ⟨h1.symm, rest, h2⟩

theorem opMatchHere_iff (l : List Char) :
    opMatchHere l = true ↔
      ∃ op c suf, op ∈ opNames ∧ l = op ++ ':' :: c :: suf ∧ jsSpace c = false := by
  unfold opMatchHere
  rw [List.any_eq_true]
  constructor
  · rintro ⟨op, hop, hcond⟩
    rw [Bool.and_eq_true, startsWithL_iff] at hcond
    obtain ⟨⟨rest, hrest⟩, h2⟩ := hcond
    subst hrest
    have hdrop : ((op ++ [':']) ++ rest).drop (op.length + 1) = rest := by
      have hlen : (op ++ [':']).length = op.length + 1 := by simp
      rw [← hlen, List.drop_left]
    rw [hdrop] at h2
    cases rest with
    | nil => simp at h2
    | cons c suf =>
      simp only [Bool.not_eq_true'] at h2
      exact ⟨op, c, suf, hop, by simp, h2⟩
  · rintro ⟨op, c, suf, hop, hl, hc⟩
    refine ⟨op, hop, ?_⟩
    subst hl
    rw [Bool.and_eq_true, startsWithL_iff]
    refine ⟨⟨c :: suf, by simp⟩, ?_⟩
    have hdrop : (op ++ ':' :: c :: suf).drop (op.length + 1) = c :: suf := by
      have hlen : (op ++ [':']).length = op.length + 1 := by simp
      have : op ++ ':' :: c :: suf = (op ++ [':']) ++ c :: suf := by simp
      rw [this, ← hlen, List.drop_left]
    rw [hdrop]
    simp [hc]

theorem hasOpFrom_iff : ∀ l, hasOpFrom l = true ↔
    ∃ pre mid, l = pre ++ mid ∧ opMatchHere mid = true := by
  intro l
  induction l with
  | nil =>
    rw [hasOpFrom]
    constructor
    · intro h; exact absurd h (by simp)
    · rintro ⟨pre, mid, hl, hm⟩
      have hpre : pre = [] := by
        cases pre with
        | nil => rfl
        | cons a as => exact absurd hl.symm (by simp)
      subst hpre
      simp only [List.nil_append] at hl
      subst hl
      exact absurd hm (by decide)
  | cons c cs ih =>
    rw [hasOpFrom, Bool.or_eq_true, ih]
    constructor
    · rintro (h | ⟨pre, mid, hl, hm⟩)
      · exact ⟨[], c :: cs, rfl, h⟩
      · exact ⟨c :: pre, mid, by simp [hl], hm⟩
    · rintro ⟨pre, mid, hl, hm⟩
      cases pre with
      | nil =>
        left
        simp only [List.nil_append] at hl
        rw [hl]; exact hm
      | cons p ps =>
        right
        injection hl with h1 h2
        exact ⟨ps, mid, h2, hm⟩

theorem containsOperator_iff (q : String) : containsOperator q = true ↔ SpecHasOperator q := by
  unfold containsOperator SpecHasOperator
  rw [hasOpFrom_iff]
  constructor
  · rintro ⟨pre, mid, hq, hm⟩
    rw [opMatchHere_iff] at hm
    obtain ⟨op, c, suf, hop, hmid, hc⟩ := hm
    exact ⟨pre, suf, op, c, by simp [hq, hmid], hop, hc⟩
  · rintro ⟨pre, suf, op, c, hq, hop, hc⟩
    refine ⟨pre, op ++ ':' :: c :: suf, by simpa using hq, ?_⟩
    exact (opMatchHere_iff _).2 ⟨op, c, suf, hop, rfl, hc⟩

/-- C4: a query containing a recognised field operator (one of `from:`,
`to:`, `subject:`, `after:`, `before:`, `newer_than:`, `older_than:`, `in:`,
`has:`, `is:`, `label:` followed by a non-space character) is sent to the
mail store unmodified at tier 1; a query containing no such operator is
wrapped in double quotes. -/
theorem claim_C4_operator_tier1 (q : String) :
    (SpecHasOperator q → tier1Query q = q) ∧
    (¬ SpecHasOperator q → tier1Query q = "\"" ++ q ++ "\"") := by
  constructor
  · intro h
    have hb : containsOperator q = true := (containsOperator_iff q).2 h
    simp [tier1Query, hb]
  · intro h
    have hb : containsOperator q = false :=
      (Bool.not_eq_true _).mp (fun hb => h ((containsOperator_iff q).1 hb))
    simp [tier1Query, hb]

/-- Witness for C4 at the concrete queries `from:alice` (operator-bearing,
passed through) and `hello world` (no operator, phrase-wrapped). -/
theorem claim_C4_witness :
    tier1Query "from:alice" = "from:alice" ∧ tier1Query "hello world" = "\"hello world\"" := by
  constructor
  · exact (claim_C4_operator_tier1 "from:alice").1 ((containsOperator_iff _).1 (by decide))
  · exact (claim_C4_operator_tier1 "hello world").2
      (fun h => absurd ((containsOperator_iff _).2 h) (by decide))

end EmailAgent

namespace EmailAgent

theorem asString_eq_iff (l : List Char) (s : String) : l.asString = s ↔ l = s.data := by
  constructor
  · intro h
    exact congrArg String.data h
  · intro h
    subst h
    rfl

/-- C1 counterexample: with a mail store that is empty for the tier-1
phrase query and for the tier-2 OR query of `"alpha beta"` but holds a
message for the bare first token `"alpha"`, `searchEmails` returns the
empty list without ever issuing the claimed third single-token search —
so no three-tier ladder exists. -/
theorem claim_C1_counterexample :
    (let store : String → List String := fun s => if s = "alpha" then ["m1"] else []
     searchEmails store (fun _ => ⟨none, none⟩) "alpha beta" = [] ∧ store "alpha" = ["m1"]) := by
  constructor
  · decide
  · decide

/-- C1 (amended): `searchEmails` applies a two-tier fallback ladder: tier 1
sends the phrase-wrapped (or operator-bearing) query; only when it returns
zero message ids is tier 2 sent (the `( ) : "` characters replaced by
spaces, the text split on spaces, tokens longer than one character kept and
joined with `OR`); when both tiers return zero ids the result is the empty
list rather than an error, and no other query (in particular no first-token
query) is ever issued. -/
theorem claim_C1_amended (store : String → List String) (getMsg : String → RawMessage)
    (q : String) :
    (store (tier1Query q) ≠ [] →
      searchEmailsTrace store getMsg q
        = ([tier1Query q], processIds getMsg [] [] (store (tier1Query q))))
    ∧ (store (tier1Query q) = [] → store (tier2Query q) = [] →
      searchEmailsTrace store getMsg q = ([tier1Query q, tier2Query q], []))
    ∧ (store (tier1Query q) = [] → store (tier2Query q) ≠ [] →
      searchEmailsTrace store getMsg q
        = ([tier1Query q, tier2Query q], processIds getMsg [] [] (store (tier2Query q))))
    ∧ (∀ s ∈ (searchEmailsTrace store getMsg q).1, s = tier1Query q ∨ s = tier2Query q) := by
  refine ⟨?_, ?_, ?_, ?_⟩ <;>
    · unfold searchEmailsTrace
      by_cases h1 : store (tier1Query q) = [] <;> by_cases h2 : store (tier2Query q) = [] <;>
        simp [h1, h2]

/-- Witness for the amended C1 at a concrete store holding one message for
every query: only the tier-1 phrase query is issued and its message is
fetched and parsed. -/
theorem claim_C1_witness :
    searchEmailsTrace (fun _ => ["m1"]) (fun _ => ⟨none, none⟩) "alpha beta"
      = (["\"alpha beta\""], [parseEmailData ⟨none, none⟩]) := by
  have h := (claim_C1_amended (fun _ => ["m1"]) (fun _ => ⟨none, none⟩) "alpha beta").1
    (by decide)
  rw [h]
  decide

/-- C5 counterexample: a message with no decodable body whose snippet field
is present but empty yields the literal `"No content available"`, not the
(present) snippet — the snippet fallback requires a non-empty snippet, not
merely a present one. -/
theorem claim_C5_counterexample :
    (RawMessage.mk none (some "")).snippet = some "" ∧
    trimJS (rawBodyOf (RawMessage.mk none (some ""))) = [] ∧
    emailContent (RawMessage.mk none (some "")) = "No content available" ∧
    emailContent (RawMessage.mk none (some "")) ≠ "" := by
  refine ⟨rfl, by decide, by decide, by decide⟩


theorem string_eq_empty_iff (s : String) : s = "" ↔ s.data = [] :=
  ⟨fun h => by rw [h], fun h => by cases s; cases h; rfl⟩

theorem trunc_key (content : List Char) :
    (if 200 < content.length then content.take 200 ++ "...".data else content).asString
      = (if 200 < content.asString.length then ((content.asString).data.take 200).asString ++ "..."
         else content.asString) := by
  have hlen : content.asString.length = content.length := rfl
  rw [hlen]
  by_cases h : 200 < content.length
  · rw [if_pos h, if_pos h]
    rfl
  · rw [if_neg h, if_neg h]

theorem contentPre_spec (m : RawMessage) : (contentPreTrunc m).asString = specContentPre m := by
  unfold contentPreTrunc specContentPre
  by_cases hb : trimJS (rawBodyOf m) = []
  · have hb' : (trimJS (rawBodyOf m)).asString = "" := (asString_eq_iff _ _).2 hb
    rw [if_neg (by simp [hb]), if_neg (by simp [hb'])]
    cases m.snippet with
    | none => rfl
    | some s =>
      show (if s.data ≠ [] then s.data else "No content available".data).asString
        = if s ≠ "" then s else "No content available"
      by_cases hs : s.data = []
      · rw [if_neg (by simp [hs]), if_neg (by simp [(string_eq_empty_iff s).2 hs])]
        rfl
      · rw [if_pos hs, if_pos (fun h => hs ((string_eq_empty_iff s).1 h))]
        rfl
  · rw [if_pos hb, if_pos (fun h => hb ((asString_eq_iff _ _).1 h))]

/-- C5 (amended): the emitted `Content` equals the specified computation —
decoded body fragments concatenated and trimmed when non-empty, otherwise
the snippet when present and non-empty (an empty snippet falls through),
otherwise `"No content available"`; content longer than 200 characters is
emitted as exactly its first 200 characters plus `"..."`, shorter content
unchanged. -/
theorem claim_C5_amended (m : RawMessage) : emailContent m = specContentAmended m := by
  simp only [emailContent, specContentAmended]
  rw [← contentPre_spec m]
  exact trunc_key _

end EmailAgent

namespace EmailAgent

theorem cawr_calls_le (api : Nat → ApiResult) (jit : Nat → ℚ)
    (h : ∀ i, ∃ b, api i = .err b) :
    ∀ fuel idx prev retries maxR ff,
      (cawrAux api jit fuel idx prev retries maxR ff).calls ≤ maxR - retries := by
  intro fuel
  induction fuel with
  | zero => intro idx prev retries maxR ff; simp [cawrAux]
  | succ n ih =>
    intro idx prev retries maxR ff
    rw [cawrAux]
    split
    · rename_i hr
      split
      · rename_i plan heq
        obtain ⟨b, hb⟩ := h idx
        rw [hb] at heq
        simp at heq
      · rename_i ov heq
        split
        · rename_i hov
          split
          · simp; omega
          · rename_i hmx
            have hrec := ih (idx + 1) prev (retries + 1) maxR ff
            simp only
            omega
        · simp; omega
    · simp


theorem cawr_overloaded_run (api : Nat → ApiResult) (jit : Nat → ℚ)
    (idx : Nat) (prev : List String) (ff : Bool) (fuel : Nat)
    (h : ∀ i, api i = .err true) (hf : 3 ≤ fuel) :
    cawrAux api jit fuel idx prev 0 3 ff
      = ⟨.ok exhaustedPlan, idx + 3, prev, 3,
         [min (1000 * 2 ^ 1 + jit idx) 10000, min (1000 * 2 ^ 2 + jit (idx + 1)) 10000]⟩ := by
  obtain ⟨f, rfl⟩ : ∃ f, fuel = f + 3 := ⟨fuel - 3, by omega⟩
  have e3 : f + 3 = (f + 2) + 1 := rfl
  rw [e3, cawrAux, if_pos (by omega : (0:Nat) < 3), h idx]
  simp only [if_pos rfl, if_neg (by omega : ¬ (3 ≤ 0 + 1))]
  rw [show f + 2 = (f + 1) + 1 from rfl, cawrAux, if_pos (by omega : (1:Nat) < 3), h (idx + 1)]
  simp only [if_pos rfl, if_neg (by omega : ¬ (3 ≤ 1 + 1))]
  rw [show f + 1 = f + 1 from rfl, cawrAux, if_pos (by omega : (2:Nat) < 3), h (idx + 1 + 1)]
  simp only [if_pos rfl, if_pos (by omega : 3 ≤ 2 + 1)]
  norm_num [Nat.add_assoc]

theorem cawr_nonoverload_thrown (api : Nat → ApiResult) (jit : Nat → ℚ)
    (idx : Nat) (prev : List String) (ff : Bool) (fuel : Nat)
    (h : api idx = .err false) :
    cawrAux api jit (fuel + 1) idx prev 0 3 ff = ⟨.thrown, idx + 1, prev, 1, []⟩ := by
  rw [cawrAux, if_pos (by omega : (0:Nat) < 3), h]
  simp

theorem cawr_delays_le (api : Nat → ApiResult) (jit : Nat → ℚ) :
    ∀ fuel idx prev retries maxR ff,
      ∀ d ∈ (cawrAux api jit fuel idx prev retries maxR ff).delays, d ≤ 10000 := by
  intro fuel
  induction fuel with
  | zero => intro idx prev retries maxR ff; simp [cawrAux]
  | succ n ih =>
    intro idx prev retries maxR ff
    rw [cawrAux]
    split
    · split
      · split
        · dsimp only
          split
          · intro d hd
            exact ih (idx + 1) prev 0 _ ff d hd
          · simp
        · simp
      · split
        · split
          · simp
          · intro d hd
            simp only [List.mem_cons] at hd
            rcases hd with rfl | hd
            · exact min_le_right _ _
            · exact ih (idx + 1) prev (retries + 1) maxR ff d hd
        · simp
    · simp


/-- C3: the Reasoning Gateway retries only on the transient-overload signal
(any non-overload error propagates immediately as a thrown error after a
single call), makes at most 3 total attempts, computes backoff delays of
1000*2^r milliseconds plus the drawn jitter capped at 10 seconds (doubling
per attempt: 2000 then 4000 before the cap), and on exhausting the 3
attempts returns the synthetic Final plan with the generic apology answer
instead of raising. -/
theorem claim_C3_retry_policy (api : Nat → ApiResult) (jit : Nat → ℚ)
    (idx : Nat) (prev : List String) (ff : Bool) (fuel : Nat) :
    ((∀ i, ∃ b, api i = .err b) →
      (cawrAux api jit fuel idx prev 0 3 ff).calls ≤ 3) ∧
    ((∀ i, api i = .err true) → 3 ≤ fuel →
      cawrAux api jit fuel idx prev 0 3 ff
        = ⟨.ok exhaustedPlan, idx + 3, prev, 3,
           [min (1000 * 2 ^ 1 + jit idx) 10000, min (1000 * 2 ^ 2 + jit (idx + 1)) 10000]⟩) ∧
    (api idx = .err false →
      cawrAux api jit (fuel + 1) idx prev 0 3 ff = ⟨.thrown, idx + 1, prev, 1, []⟩) ∧
    (∀ d ∈ (cawrAux api jit fuel idx prev 0 3 ff).delays, d ≤ 10000) := by
  refine ⟨fun h => ?_, fun h hf => cawr_overloaded_run api jit idx prev ff fuel h hf,
    fun h => cawr_nonoverload_thrown api jit idx prev ff fuel h,
    cawr_delays_le api jit fuel idx prev 0 3 ff⟩
  simpa using cawr_calls_le api jit h fuel idx prev 0 3 ff

/-- Witness for C3: an always-overloaded service yields exactly 3 calls,
delays 2000 and 4000, and the apology plan; a first-call non-overload error
yields a single call and an immediate throw. -/
theorem claim_C3_witness :
    cawrAux (fun _ => .err true) (fun _ => 0) 3 0 [] 0 3 false
      = ⟨.ok exhaustedPlan, 3, [], 3, [2000, 4000]⟩ ∧
    cawrAux (fun i => .err (i != 0)) (fun _ => 0) 4 0 [] 0 3 false
      = ⟨.thrown, 1, [], 1, []⟩ := by
  constructor
  · have h := (claim_C3_retry_policy (fun _ => .err true) (fun _ => 0) 0 [] false 3).2.1
      (fun _ => rfl) (by omega)
    rw [h]
    rw [min_eq_left (by norm_num), min_eq_left (by norm_num)]
    norm_num
  · exact (claim_C3_retry_policy (fun i => .err (i != 0)) (fun _ => 0) 0 [] false 3).2.2.1
      (by decide)


theorem loop_iters_le (api : Nat → ApiResult) (jit : Nat → ℚ) (store : String → List String)
    (getMsg : String → RawMessage) (fmt : ℚ → String) (innerFuel : Nat) :
    ∀ ofuel iterations st, iterations ≤ 5 →
      (agentLoopAux api jit store getMsg fmt innerFuel ofuel iterations st).iters ≤ 5 := by
  intro ofuel
  induction ofuel with
  | zero => intro iterations st h; simpa [agentLoopAux] using h
  | succ n ih =>
    intro iterations st h
    rw [agentLoopAux]
    split
    · rename_i h5
      dsimp only
      split
      · simpa using h
      · simpa using h
      · rename_i plan0 heq
        split
        · split
          · simpa using h
          · split
            · simpa using h
            · exact ih (iterations + 1) _ (by omega)
        · split
          · simpa using h
          · split
            · simpa using h
            · exact ih (iterations + 1) _ (by omega)
        · exact ih (iterations + 1) _ (by omega)
        · split
          · split
            · simpa using h
            · simpa using h
          · simpa using h
        · simpa using h
    · split
      · simpa using h
      · simpa using h


theorem loop_all_overload (api : Nat → ApiResult) (jit : Nat → ℚ) (store : String → List String)
    (getMsg : String → RawMessage) (fmt : ℚ → String) (innerFuel : Nat)
    (h : ∀ i, api i = .err true) (hf : 3 ≤ innerFuel) :
    (agentSolveQuery api jit store getMsg fmt innerFuel).out = .ok overloadApology [] := by
  unfold agentSolveQuery
  rw [show (6 : Nat) = 5 + 1 from rfl, agentLoopAux, if_pos (by omega : (0 : Nat) < 5)]
  dsimp only
  unfold callAgentGW
  rw [cawr_overloaded_run api jit 0 [] _ innerFuel h hf]
  have hn : normalizePlan exhaustedPlan = exhaustedPlan := by decide
  dsimp only
  rw [hn]
  rfl


/-- C2: for every reasoning-service behaviour the agent loop's iteration
counter never exceeds 5; and when every reasoning call fails with the
transient-overload signal, the loop still returns a result whose answer is
the (non-empty) overload apology rather than throwing. -/
theorem claim_C2_loop (api : Nat → ApiResult) (jit : Nat → ℚ) (store : String → List String)
    (getMsg : String → RawMessage) (fmt : ℚ → String) (innerFuel : Nat) :
    (agentSolveQuery api jit store getMsg fmt innerFuel).iters ≤ 5 ∧
    ((∀ i, api i = .err true) → 3 ≤ innerFuel →
      (agentSolveQuery api jit store getMsg fmt innerFuel).out = .ok overloadApology []
        ∧ overloadApology ≠ "") := by
  refine ⟨loop_iters_le api jit store getMsg fmt innerFuel 6 0 _ (by omega),
    fun h hf => ⟨loop_all_overload api jit store getMsg fmt innerFuel h hf, by decide⟩⟩

/-- Witness for C2 at the always-overloaded reasoning service. -/
theorem claim_C2_witness :
    (agentSolveQuery (fun _ => .err true) (fun _ => 0) (fun _ => []) (fun _ => ⟨none, none⟩)
        (fun _ => "") 3).iters ≤ 5 ∧
    (agentSolveQuery (fun _ => .err true) (fun _ => 0) (fun _ => []) (fun _ => ⟨none, none⟩)
        (fun _ => "") 3).out = .ok overloadApology [] :=
  ⟨(claim_C2_loop _ _ _ _ _ _).1,
   ((claim_C2_loop _ _ _ _ _ _).2 (fun _ => rfl) (by omega)).1⟩


/-- C8: the boolean shape `final: true` with a `finalAnswer` of `"X"` is
normalised to a canonical Final plan and the loop returns `"X"`; and the
nested shapes `search: {query}`, `refine: {query}` and
`final: {finalAnswer}` without an action tag are rewritten to the
corresponding canonical tagged plan before dispatch. -/
theorem claim_C8_normalization (api : Nat → ApiResult) (jit : Nat → ℚ)
    (store : String → List String) (getMsg : String → RawMessage) (fmt : ℚ → String)
    (innerFuel : Nat) (p : AgentPlan) (q a : String) :
    (1 ≤ innerFuel →
      api 0 = .ok { final := some (.boolVal true), finalAnswer := some "X" } →
      (agentSolveQuery api jit store getMsg fmt innerFuel).out = .ok "X" []) ∧
    (p.action = none → p.final = none → p.search = some ⟨q⟩ → q ≠ "" →
      (normalizePlan p).action = some .search ∧ (normalizePlan p).query = some q) ∧
    (p.action = none → p.final = none → p.search = none → p.refine = some ⟨q⟩ → q ≠ "" →
      (normalizePlan p).action = some .refine ∧ (normalizePlan p).query = some q) ∧
    (p.action = none → p.search = none → p.refine = none → p.final = some (.objVal a) →
      (normalizePlan p).action = some .final ∧ (normalizePlan p).finalAnswer = some a) := by
  refine ⟨?_, ?_, ?_, ?_⟩
  · intro hf hapi
    obtain ⟨f, rfl⟩ : ∃ f, innerFuel = f + 1 := ⟨innerFuel - 1, by omega⟩
    unfold agentSolveQuery
    rw [show (6 : Nat) = 5 + 1 from rfl, agentLoopAux, if_pos (by omega : (0 : Nat) < 5)]
    dsimp only
    unfold callAgentGW
    rw [cawrAux, if_pos (by omega : (0 : Nat) < 3), hapi]
    rfl
  · intro hact hfin hse hq
    obtain ⟨act, qr, fa, sc, fin, se, re, su⟩ := p
    simp only at hact hfin hse
    subst hact hfin hse
    simp [normalizePlan, hq]
  · intro hact hfin hse hre hq
    obtain ⟨act, qr, fa, sc, fin, se, re, su⟩ := p
    simp only at hact hfin hse hre
    subst hact hfin hse hre
    simp [normalizePlan, hq]
  · intro hact hse hre hfin
    obtain ⟨act, qr, fa, sc, fin, se, re, su⟩ := p
    simp only at hact hfin hse hre
    subst hact hfin hse hre
    simp [normalizePlan]

/-- Witness for C8 at concrete non-canonical plans. -/
theorem claim_C8_witness :
    (agentSolveQuery (fun _ => .ok { final := some (.boolVal true), finalAnswer := some "X" })
        (fun _ => 0) (fun _ => []) (fun _ => ⟨none, none⟩) (fun _ => "") 1).out = .ok "X" [] ∧
    (normalizePlan { search := some ⟨"foo"⟩ }).action = some .search ∧
    (normalizePlan { search := some ⟨"foo"⟩ }).query = some "foo" ∧
    (normalizePlan { refine := some ⟨"bar"⟩ }).action = some .refine ∧
    (normalizePlan { refine := some ⟨"bar"⟩ }).query = some "bar" ∧
    (normalizePlan { final := some (.objVal "ans") }).action = some .final ∧
    (normalizePlan { final := some (.objVal "ans") }).finalAnswer = some "ans" := by
  have h1 := (claim_C8_normalization (fun _ => .ok { final := some (.boolVal true), finalAnswer := some "X" })
    (fun _ => 0) (fun _ => []) (fun _ => ⟨none, none⟩) (fun _ => "") 1
    { search := some ⟨"foo"⟩ } "foo" "ans").1 (by omega) rfl
  have h2 := (claim_C8_normalization (fun _ => .err true) (fun _ => 0) (fun _ => [])
    (fun _ => ⟨none, none⟩) (fun _ => "") 1 { search := some ⟨"foo"⟩ } "foo" "ans").2.1
    rfl rfl rfl (by decide)
  have h3 := (claim_C8_normalization (fun _ => .err true) (fun _ => 0) (fun _ => [])
    (fun _ => ⟨none, none⟩) (fun _ => "") 1 { refine := some ⟨"bar"⟩ } "bar" "ans").2.2.1
    rfl rfl rfl rfl (by decide)
  have h4 := (claim_C8_normalization (fun _ => .err true) (fun _ => 0) (fun _ => [])
    (fun _ => ⟨none, none⟩) (fun _ => "") 1 { final := some (.objVal "ans") } "foo" "ans").2.2.2
    rfl rfl rfl rfl
  exact ⟨h1, h2.1, h2.2, h3.1, h3.2, h4.1, h4.2⟩


theorem applyForceFinal_SR (ff : Bool) (p : AgentPlan)
    (h : (applyForceFinal ff p).action = some .search ∨
         (applyForceFinal ff p).action = some .refine) :
    applyForceFinal ff p = p := by
  by_cases hc : (ff && !(p.action == some ActionTag.final)) = true
  · exfalso
    unfold applyForceFinal at h
    rw [if_pos hc] at h
    dsimp only at h
    by_cases h2 : optTruthy ({ p with action := some ActionTag.final } : AgentPlan).finalAnswer = true
    · rw [if_pos h2] at h
      simp at h
    · rw [if_neg h2] at h
      simp at h
  · unfold applyForceFinal
    rw [if_neg hc]

theorem normalizePlan_of_some (p : AgentPlan) (a : ActionTag) (h : p.action = some a) :
    normalizePlan p = p := by
  obtain ⟨act, qr, fa, sc, fin, se, re, su⟩ := p
  simp only at h
  subst h
  simp [normalizePlan]

theorem cawrAux_prev_sub (api : Nat → ApiResult) (jit : Nat → ℚ) :
    ∀ fuel idx prev retries maxR ff x, x ∈ prev →
      x ∈ (cawrAux api jit fuel idx prev retries maxR ff).prev := by
  intro fuel
  induction fuel with
  | zero => intro idx prev retries maxR ff x hx; simpa [cawrAux] using hx
  | succ n ih =>
    intro idx prev retries maxR ff x hx
    rw [cawrAux]
    split
    · split
      · dsimp only
        split
        · split
          · exact ih (idx + 1) prev 0 _ ff x hx
          · simp [hx]
        · simpa using hx
      · split
        · split
          · simpa using hx
          · exact ih (idx + 1) prev _ _ ff x hx
        · simpa using hx
    · simpa using hx


theorem cawrAux_ok_SR (api : Nat → ApiResult) (jit : Nat → ℚ) :
    ∀ fuel idx prev retries maxR ff plan q,
      (cawrAux api jit fuel idx prev retries maxR ff).out = .ok plan →
      (plan.action = some .search ∨ plan.action = some .refine) →
      plan.query = some q → q ≠ "" →
      lowerStr q ∉ prev ∧
        (cawrAux api jit fuel idx prev retries maxR ff).prev = lowerStr q :: prev := by
  intro fuel
  induction fuel with
  | zero =>
    intro idx prev retries maxR ff plan q hout hSR hq hqne
    simp [cawrAux] at hout
  | succ n ih =>
    intro idx prev retries maxR ff plan q hout hSR hq hqne
    rw [cawrAux] at hout ⊢
    by_cases hr : retries < maxR
    · rw [if_pos hr] at hout ⊢
      cases hapi : api idx with
      | ok plan' =>
        rw [hapi] at hout
        dsimp only at hout ⊢
        by_cases hsr : ((plan'.action == some ActionTag.search
            || plan'.action == some ActionTag.refine) && optTruthy plan'.query) = true
        · rw [if_pos hsr] at hout ⊢
          by_cases hmem : lowerStr (plan'.query.getD "") ∈ prev
          · rw [if_pos hmem] at hout ⊢
            exact ih (idx + 1) prev 0 (maxR - retries) ff plan q hout hSR hq hqne
          · rw [if_neg hmem] at hout ⊢
            dsimp only at hout ⊢
            injection hout with hpl
            have hff : applyForceFinal ff plan' = plan' :=
              applyForceFinal_SR ff plan' (hpl ▸ hSR)
            have hplan : plan = plan' := by rw [← hpl, hff]
            have hq' : plan'.query.getD "" = q := by rw [← hplan, hq]; rfl
            rw [hq'] at hmem ⊢
            exact ⟨hmem, rfl⟩
        · rw [if_neg hsr] at hout ⊢
          dsimp only at hout ⊢
          injection hout with hpl
          have hff : applyForceFinal ff plan' = plan' :=
            applyForceFinal_SR ff plan' (hpl ▸ hSR)
          have hplan : plan = plan' := by rw [← hpl, hff]
          exfalso
          apply hsr
          rw [Bool.and_eq_true, Bool.or_eq_true]
          constructor
          · rcases hSR with h | h
            · exact Or.inl (by rw [← hplan, h]; rfl)
            · exact Or.inr (by rw [← hplan, h]; rfl)
          · rw [← hplan, hq]
            simp [optTruthy, hqne]
      | err ov =>
        rw [hapi] at hout
        dsimp only at hout ⊢
        cases ov with
        | false =>
          simp at hout
        | true =>
          simp only [reduceIte] at hout ⊢
          by_cases hmx : maxR ≤ retries + 1
          · rw [if_pos hmx] at hout ⊢
            dsimp only at hout
            injection hout with hpl
            rw [← hpl] at hSR
            simp [exhaustedPlan] at hSR
          · rw [if_neg hmx] at hout ⊢
            dsimp only at hout ⊢
            exact ih (idx + 1) prev (retries + 1) maxR ff plan q hout hSR hq hqne
    · rw [if_neg hr] at hout ⊢
      dsimp only at hout
      injection hout with hpl
      rw [← hpl] at hSR
      simp [exhaustedPlan] at hSR


theorem loop_searches_inv (api : Nat → ApiResult) (jit : Nat → ℚ)
    (store : String → List String) (getMsg : String → RawMessage) (fmt : ℚ → String)
    (innerFuel : Nat) :
    ∀ ofuel iterations st,
      List.Pairwise (fun a b => lowerStr a ≠ lowerStr b)
        (canonicalQueries
          (agentLoopAux api jit store getMsg fmt innerFuel ofuel iterations st).searches)
      ∧ ∀ q ∈ canonicalQueries
            (agentLoopAux api jit store getMsg fmt innerFuel ofuel iterations st).searches,
          lowerStr q ∉ st.prev := by
  intro ofuel
  induction ofuel with
  | zero => intro iterations st; simp [agentLoopAux, canonicalQueries]
  | succ n ih =>
    intro iterations st
    rw [agentLoopAux]
    split
    · rename_i h5
      dsimp only
      split
      · simp [canonicalQueries]
      · simp [canonicalQueries]
      · rename_i plan0 heq
        split
        · -- search action
          rename_i hact
          split
          · simp [canonicalQueries]
          · rename_i q hq
            split
            · simp [canonicalQueries]
            · rename_i hqne
              dsimp only
              by_cases hcan : (plan0.action == some ActionTag.search
                  || plan0.action == some ActionTag.refine) = true
              · have hSR : plan0.action = some ActionTag.search
                    ∨ plan0.action = some ActionTag.refine := by
                  rw [Bool.or_eq_true, beq_iff_eq, beq_iff_eq] at hcan
                  exact hcan
                have hnp : normalizePlan plan0 = plan0 := by
                  rcases hSR with h | h
                  · exact normalizePlan_of_some _ _ h
                  · exact normalizePlan_of_some _ _ h
                have hq0 : plan0.query = some q := by rw [hnp] at hq; exact hq
                have hqne' : q ≠ "" := by simpa using hqne
                obtain ⟨hnotmem, hprev⟩ := cawrAux_ok_SR api jit innerFuel st.idx st.prev 0 3
                  (iterations == 5 - 1) plan0 q heq hSR hq0 hqne'
                have hprev' : (callAgentGW api jit innerFuel st.idx st.prev
                    (iterations == 5 - 1)).prev = lowerStr q :: st.prev := hprev
                have hih := ih (iterations + 1)
                  ⟨some (if (searchEmails store getMsg q).isEmpty
                        && !(st.allSeen ++ searchEmails store getMsg q).isEmpty
                      then (st.allSeen ++ searchEmails store getMsg q).take 5
                      else searchEmails store getMsg q),
                    st.allSeen ++ searchEmails store getMsg q,
                    (callAgentGW api jit innerFuel st.idx st.prev (iterations == 5 - 1)).prev,
                    (callAgentGW api jit innerFuel st.idx st.prev (iterations == 5 - 1)).next⟩
                simp only [canonicalQueries, List.filter_cons, hcan, if_pos, List.map_cons] at *
                constructor
                · rw [List.pairwise_cons]
                  refine ⟨?_, hih.1⟩
                  intro b hb hcontra
                  have hb' := hih.2 b hb
                  rw [hprev'] at hb'
                  exact hb' (by rw [← hcontra]; exact List.mem_cons_self _ _)
                · intro q' hq'
                  rcases List.mem_cons.mp hq' with rfl | hmem
                  · exact hnotmem
                  · have hb' := hih.2 q' hmem
                    rw [hprev'] at hb'
                    intro hc
                    exact hb' (List.mem_cons_of_mem _ hc)
              · have hcan' : (plan0.action == some ActionTag.search
                    || plan0.action == some ActionTag.refine) = false := by
                  simpa using hcan
                have hih := ih (iterations + 1)
                  ⟨some (if (searchEmails store getMsg q).isEmpty
                        && !(st.allSeen ++ searchEmails store getMsg q).isEmpty
                      then (st.allSeen ++ searchEmails store getMsg q).take 5
                      else searchEmails store getMsg q),
                    st.allSeen ++ searchEmails store getMsg q,
                    (callAgentGW api jit innerFuel st.idx st.prev (iterations == 5 - 1)).prev,
                    (callAgentGW api jit innerFuel st.idx st.prev (iterations == 5 - 1)).next⟩
                simp only [canonicalQueries, List.filter_cons, hcan', List.map_cons] at *
                refine ⟨hih.1, ?_⟩
                intro q' hq' hmem
                exact hih.2 q' hq'
                  (cawrAux_prev_sub api jit innerFuel st.idx st.prev 0 3 _ _ hmem)
        · -- refine action
          rename_i hact
          split
          · simp [canonicalQueries]
          · rename_i q hq
            split
            · simp [canonicalQueries]
            · rename_i hqne
              dsimp only
              by_cases hcan : (plan0.action == some ActionTag.search
                  || plan0.action == some ActionTag.refine) = true
              · have hSR : plan0.action = some ActionTag.search
                    ∨ plan0.action = some ActionTag.refine := by
                  rw [Bool.or_eq_true, beq_iff_eq, beq_iff_eq] at hcan
                  exact hcan
                have hnp : normalizePlan plan0 = plan0 := by
                  rcases hSR with h | h
                  · exact normalizePlan_of_some _ _ h
                  · exact normalizePlan_of_some _ _ h
                have hq0 : plan0.query = some q := by rw [hnp] at hq; exact hq
                have hqne' : q ≠ "" := by simpa using hqne
                obtain ⟨hnotmem, hprev⟩ := cawrAux_ok_SR api jit innerFuel st.idx st.prev 0 3
                  (iterations == 5 - 1) plan0 q heq hSR hq0 hqne'
                have hprev' : (callAgentGW api jit innerFuel st.idx st.prev
                    (iterations == 5 - 1)).prev = lowerStr q :: st.prev := hprev
                have hih := ih (iterations + 1)
                  ⟨some (if (searchEmails store getMsg q).isEmpty
                        && !(st.allSeen ++ searchEmails store getMsg q).isEmpty
                      then (st.allSeen ++ searchEmails store getMsg q).take 5
                      else searchEmails store getMsg q),
                    st.allSeen ++ searchEmails store getMsg q,
                    (callAgentGW api jit innerFuel st.idx st.prev (iterations == 5 - 1)).prev,
                    (callAgentGW api jit innerFuel st.idx st.prev (iterations == 5 - 1)).next⟩
                simp only [canonicalQueries, List.filter_cons, hcan, if_pos, List.map_cons] at *
                constructor
                · rw [List.pairwise_cons]
                  refine ⟨?_, hih.1⟩
                  intro b hb hcontra
                  have hb' := hih.2 b hb
                  rw [hprev'] at hb'
                  exact hb' (by rw [← hcontra]; exact List.mem_cons_self _ _)
                · intro q' hq'
                  rcases List.mem_cons.mp hq' with rfl | hmem
                  · exact hnotmem
                  · have hb' := hih.2 q' hmem
                    rw [hprev'] at hb'
                    intro hc
                    exact hb' (List.mem_cons_of_mem _ hc)
              · have hcan' : (plan0.action == some ActionTag.search
                    || plan0.action == some ActionTag.refine) = false := by
                  simpa using hcan
                have hih := ih (iterations + 1)
                  ⟨some (if (searchEmails store getMsg q).isEmpty
                        && !(st.allSeen ++ searchEmails store getMsg q).isEmpty
                      then (st.allSeen ++ searchEmails store getMsg q).take 5
                      else searchEmails store getMsg q),
                    st.allSeen ++ searchEmails store getMsg q,
                    (callAgentGW api jit innerFuel st.idx st.prev (iterations == 5 - 1)).prev,
                    (callAgentGW api jit innerFuel st.idx st.prev (iterations == 5 - 1)).next⟩
                simp only [canonicalQueries, List.filter_cons, hcan', List.map_cons] at *
                refine ⟨hih.1, ?_⟩
                intro q' hq' hmem
                exact hih.2 q' hq'
                  (cawrAux_prev_sub api jit innerFuel st.idx st.prev 0 3 _ _ hmem)
        · -- sum action
          constructor
          · exact (ih (iterations + 1) _).1
          · intro q' hq' hmem
            exact (ih (iterations + 1) _).2 q' hq'
              (cawrAux_prev_sub api jit innerFuel st.idx st.prev 0 3 _ _ hmem)
        · -- final action
          split
          · split
            · simp [canonicalQueries]
            · simp [canonicalQueries]
          · simp [canonicalQueries]
        · simp [canonicalQueries]
    · split
      · simp [canonicalQueries]
      · simp [canonicalQueries]


/-- C7 (amended): within one session, no two searches issued from plans
that already carried their `search`/`refine` action tag when the gateway
returned them receive query strings equal after lowercasing (the gateway's
dedup set, reset at session start, blocks and records exactly those
queries); plans normalised from nested shapes bypass the registration and
may repeat (see the counterexample). -/
theorem claim_C7_amended (api : Nat → ApiResult) (jit : Nat → ℚ)
    (store : String → List String) (getMsg : String → RawMessage) (fmt : ℚ → String)
    (innerFuel : Nat) :
    List.Pairwise (fun a b => lowerStr a ≠ lowerStr b)
      (canonicalQueries (agentSolveQuery api jit store getMsg fmt innerFuel).searches) :=
  (loop_searches_inv api jit store getMsg fmt innerFuel 6 0 ⟨none, [], [], 0⟩).1

/-- C7 counterexample: a reasoning service that always answers with the
nested shape `search: {query: "foo"}` drives four searchEmails calls with
the identical query `"foo"` in one session, because the dedup check in the
gateway runs before normalisation and sees no action tag. -/
theorem claim_C7_counterexample :
    (let tr := agentSolveQuery
        (fun _ => .ok { search := some ⟨"foo"⟩ }) (fun _ => 0)
        (fun _ => []) (fun _ => ⟨none, none⟩) (fun _ => "") 1
     tr.searches.map Prod.fst = ["foo", "foo", "foo", "foo"] ∧
     ¬ List.Pairwise (fun a b => lowerStr a.1 ≠ lowerStr b.1) tr.searches) := by
  constructor
  · decide
  · decide

end EmailAgent

namespace EmailAgent

/-- C9 counterexample: a request with no token is answered with HTTP 401,
but the JSON body carries the authentication prompt under a `message` key
and contains no `answer` field at all, contradicting the claimed
`answer`-field shape. -/
theorem claim_C9_counterexample :
    (postHandler ⟨"what did I spend on flights", none⟩ (.ok ("", []))).status = 401 ∧
    (postHandler ⟨"what did I spend on flights", none⟩ (.ok ("", []))).body.answer = none ∧
    (postHandler ⟨"what did I spend on flights", none⟩ (.ok ("", []))).body.message
      = some "Authentication required" :=
  ⟨rfl, rfl, rfl⟩

/-- C9 (amended): when the POST handler receives a body with no token it
responds with HTTP 401 and the JSON body `{message: "Authentication
required"}` — a human-readable authentication prompt under the `message`
key, with no `answer` field. -/
theorem claim_C9_amended (body : ReqBody) (pipeline : Except UpstreamErr (String × List String))
    (h : body.token = none) :
    postHandler body pipeline = ⟨401, { message := some "Authentication required" }⟩ := by
  obtain ⟨q, tok⟩ := body
  simp only at h
  subst h
  rfl

/-- Witness for the amended C9 at a concrete tokenless request. -/
theorem claim_C9_witness :
    postHandler ⟨"flights", none⟩ (.error .scopeErr)
      = ⟨401, { message := some "Authentication required" }⟩ :=
  claim_C9_amended _ _ rfl

end EmailAgent

namespace EmailAgent

theorem data_asString (s : String) : (s.data).asString = s := rfl

theorem parseAmount_4500 : parseAmount (stripCommas "4500".data) = some (4500 : ℚ) := by
  have h : parseAmount (stripCommas "4500".data) = some ((digitsToNat "4500".data : ℚ)) := rfl
  rw [h, show digitsToNat "4500".data = 4500 from by decide]
  norm_num

theorem parseAmount_3200 : parseAmount (stripCommas "3200".data) = some (3200 : ℚ) := by
  have h : parseAmount (stripCommas "3200".data) = some ((digitsToNat "3200".data : ℚ)) := rfl
  rw [h, show digitsToNat "3200".data = 3200 from by decide]
  norm_num

/-- C6: for two message summary blocks whose subject+content search text
yields no keyword-pattern match and exactly one bare-currency match
capturing `4500` resp. `3200` with case-sensitive currency text `Rs.`,
`calculateSum` with category `"flights"` (which selects the flight pattern
set) returns total 7700 and dominant currency `"Rs."`. -/
theorem claim_C6_flight_sum (b1 b2 : String) (f1 f2 : List Char)
    (h1k : scanPat (.keyword flightKws) (searchTextOf b1) = [])
    (h2k : scanPat (.keyword flightKws) (searchTextOf b2) = [])
    (h1 : scanPat .plainTail (searchTextOf b1) = [(f1, "4500".data)])
    (h2 : scanPat .plainTail (searchTextOf b2) = [(f2, "3200".data)])
    (hc1 : firstCurrencyCS f1 = "Rs.".data)
    (hc2 : firstCurrencyCS f2 = "Rs.".data) :
    (calculateSum [b1, b2] "flights").total = 7700 ∧
    (calculateSum [b1, b2] "flights").currency = "Rs." := by
  have hpats : patternsFor "flights" = [.keyword flightKws, .plainTail] := by decide
  unfold calculateSum sumScan
  rw [hpats]
  simp only [List.foldl_cons, List.foldl_nil]
  unfold processEmail
  simp only [List.foldl_cons, List.foldl_nil]
  rw [h1k, h1, h2k, h2]
  simp only [List.foldl_cons, List.foldl_nil]
  unfold processMatch
  dsimp only
  rw [hc1, hc2, parseAmount_4500, parseAmount_3200]
  dsimp only
  rw [data_asString]
  constructor
  · norm_num
  · norm_num [bumpCount, dominantCurrency]
    decide


/-- Witness for C6 at the two concrete mail blocks of the end-to-end
scenario. -/
theorem claim_C6_witness :
    (calculateSum ["From: a@x\nSubject: s\nDate: d\nContent: Rs. 4500",
        "From: b@x\nSubject: s\nDate: d\nContent: Rs. 3200"] "flights").total = 7700 ∧
    (calculateSum ["From: a@x\nSubject: s\nDate: d\nContent: Rs. 4500",
        "From: b@x\nSubject: s\nDate: d\nContent: Rs. 3200"] "flights").currency = "Rs." :=
  claim_C6_flight_sum
    "From: a@x\nSubject: s\nDate: d\nContent: Rs. 4500"
    "From: b@x\nSubject: s\nDate: d\nContent: Rs. 3200"
    "Rs. 4500".data "Rs. 3200".data
    (by decide) (by decide) (by decide) (by decide) (by decide) (by decide)


theorem takeWhile_all (p : Char → Bool) :
    ∀ l : List Char, (∀ c ∈ l, p c = true) → l.takeWhile p = l := by
  intro l
  induction l with
  | nil => intro _; rfl
  | cons c cs ih =>
    intro h
    rw [List.takeWhile_cons, if_pos (h c (List.mem_cons_self c cs))]
    rw [ih (fun x hx => h x (List.mem_cons_of_mem c hx))]

theorem takeWhile_append_stop (p : Char → Bool) :
    ∀ l1 : List Char, ∀ (x : Char) (l2 : List Char), (∀ c ∈ l1, p c = true) → p x = false →
      (l1 ++ x :: l2).takeWhile p = l1 := by
  intro l1
  induction l1 with
  | nil =>
    intro x l2 _ hx
    rw [List.nil_append, List.takeWhile_cons, if_neg (by simp [hx])]
  | cons c cs ih =>
    intro x l2 h hx
    rw [List.cons_append, List.takeWhile_cons, if_pos (h c (List.mem_cons_self c cs))]
    rw [ih x l2 (fun y hy => h y (List.mem_cons_of_mem c hy)) hx]

theorem matchAmount_form (cs : List Char) (grp rst : List Char)
    (h : matchAmount cs = some (grp, rst)) : GroupForm grp := by
  unfold matchAmount at h
  by_cases hdc : (cs.takeWhile (fun c => c.isDigit || c == ',')).isEmpty
  · rw [if_pos hdc] at h
    cases h
  · rw [if_neg hdc] at h
    have hdcmem : ∀ c ∈ cs.takeWhile (fun c => c.isDigit || c == ','),
        c.isDigit = true ∨ c = ',' := by
      intro c hc
      have hpc := List.mem_takeWhile_imp hc
      rw [Bool.or_eq_true] at hpc
      rcases hpc with h1 | h2
      · exact Or.inl h1
      · exact Or.inr (by simpa using h2)
    have hdcne : cs.takeWhile (fun c => c.isDigit || c == ',') ≠ [] := by
      simpa [List.isEmpty_iff] using hdc
    dsimp only at h
    split at h
    · rename_i r2 heqr
      by_cases hds : (r2.takeWhile Char.isDigit).isEmpty
      · rw [if_pos hds] at h
        injection h with h1
        injection h1 with hgrp hrest
        exact ⟨_, [], by rw [← hgrp, List.append_nil], hdcne, hdcmem, Or.inl rfl⟩
      · rw [if_neg hds] at h
        injection h with h1
        injection h1 with hgrp hrest
        refine ⟨_, '.' :: r2.takeWhile Char.isDigit, by rw [← hgrp], hdcne, hdcmem, Or.inr ?_⟩
        refine ⟨_, rfl, by simpa [List.isEmpty_iff] using hds, ?_⟩
        intro c hc
        exact List.mem_takeWhile_imp hc
    · rename_i heqr
      injection h with h1
      injection h1 with hgrp hrest
      exact ⟨_, [], by rw [← hgrp, List.append_nil], hdcne, hdcmem, Or.inl rfl⟩

theorem matchPlainAt_form (cs full grp rst : List Char)
    (h : matchPlainAt cs = some (full, grp, rst)) : GroupForm grp := by
  unfold matchPlainAt at h
  split at h
  · cases h
  · rename_i cur r1 heq
    dsimp only at h
    split at h
    · cases h
    · rename_i grp' r3 hma
      injection h with h1
      injection h1 with hfull h2
      injection h2 with hgrp hrest
      rw [← hgrp]
      exact matchAmount_form _ _ _ hma

theorem patMatchAt_form (pat : MoneyPat) (cs full grp rst : List Char)
    (h : patMatchAt pat cs = some (full, grp, rst)) : GroupForm grp := by
  cases pat with
  | plain => exact matchPlainAt_form _ _ _ _ h
  | plainTail =>
    replace h : matchPlainTailAt cs = some (full, grp, rst) := h
    unfold matchPlainTailAt at h
    split at h
    · cases h
    · rename_i full' grp' r3 hpl
      split at h
      · injection h with h1
        injection h1 with hfull h2
        injection h2 with hgrp hrest
        rw [← hgrp]
        exact matchPlainAt_form _ _ _ _ hpl
      · rename_i c r4
        split at h
        · cases h
        · injection h with h1
          injection h1 with hfull h2
          injection h2 with hgrp hrest
          rw [← hgrp]
          exact matchPlainAt_form _ _ _ _ hpl
  | keyword kws =>
    replace h : matchKwAt kws cs = some (full, grp, rst) := h
    unfold matchKwAt at h
    split at h
    · cases h
    · rename_i kw r1 hkw
      dsimp only at h
      split at h
      · rename_i f2 grp' r3 hpl
        injection h with h1
        injection h1 with hfull h2
        injection h2 with hgrp hrest
        rw [← hgrp]
        exact matchPlainAt_form _ _ _ _ hpl
      · cases h

theorem scanAux_form (pat : MoneyPat) :
    ∀ (fuel : Nat) (l : List Char) m, m ∈ scanAux pat fuel l → GroupForm m.2 := by
  intro fuel
  induction fuel with
  | zero => intro l m hm; simp [scanAux] at hm
  | succ n ih =>
    intro l m hm
    cases l with
    | nil => simp [scanAux] at hm
    | cons c cs =>
      rw [scanAux] at hm
      split at hm
      · rename_i full grp rest hp
        rcases List.mem_cons.mp hm with rfl | hm'
        · exact patMatchAt_form pat (c :: cs) full grp rest hp
        · exact ih rest _ hm'
      · exact ih cs m hm

theorem allMatches_form (emails : List String) (category : String) :
    ∀ m ∈ allMatches emails category, GroupForm m.2 := by
  intro m hm
  unfold allMatches at hm
  rcases List.mem_flatMap.mp hm with ⟨e, _, hm2⟩
  rcases List.mem_flatMap.mp hm2 with ⟨p, _, hm3⟩
  exact scanAux_form p _ _ m hm3


theorem groupForm_chars {g : List Char} (h : GroupForm g) :
    ∀ c ∈ g, c.isDigit = true ∨ c = ',' ∨ c = '.' := by
  obtain ⟨dc, ds, rfl, _, hdc, hds⟩ := h
  intro c hc
  rcases List.mem_append.mp hc with h1 | h2
  · rcases hdc c h1 with hd | hcm
    · exact Or.inl hd
    · exact Or.inr (Or.inl hcm)
  · rcases hds with rfl | ⟨fs, rfl, _, hfs⟩
    · simp at h2
    · rcases List.mem_cons.mp h2 with rfl | h3
      · exact Or.inr (Or.inr rfl)
      · exact Or.inl (hfs c h3)

theorem groupForm_dot_count {g : List Char} (h : GroupForm g) : g.count '.' ≤ 1 := by
  obtain ⟨dc, ds, rfl, _, hdc, hds⟩ := h
  rw [List.count_append]
  have hdc0 : dc.count '.' = 0 := by
    rw [List.count_eq_zero]
    intro hmem
    rcases hdc '.' hmem with hd | hcm
    · simp [Char.isDigit] at hd
    · cases hcm
  rcases hds with rfl | ⟨fs, rfl, _, hfs⟩
  · simp [hdc0]
  · have hfs0 : fs.count '.' = 0 := by
      rw [List.count_eq_zero]
      intro hmem
      have := hfs '.' hmem
      simp [Char.isDigit] at this
    rw [hdc0, List.count_cons]
    simp [hfs0]

theorem stripCommas_digits {dc : List Char} (hdc : ∀ c ∈ dc, c.isDigit = true ∨ c = ',') :
    ∀ c ∈ stripCommas dc, c.isDigit = true := by
  intro c hc
  unfold stripCommas at hc
  rw [List.mem_filter] at hc
  rcases hdc c hc.1 with hd | hcm
  · exact hd
  · exfalso
    rw [hcm] at hc
    simpa using hc.2

theorem stripCommas_ne_iff {dc : List Char} (hdc : ∀ c ∈ dc, c.isDigit = true ∨ c = ',') :
    stripCommas dc ≠ [] ↔ dc.any Char.isDigit = true := by
  unfold stripCommas
  rw [List.any_eq_true]
  constructor
  · intro hne
    obtain ⟨c, hc⟩ := List.exists_mem_of_ne_nil _ hne
    rw [List.mem_filter] at hc
    rcases hdc c hc.1 with hd | hcm
    · exact ⟨c, hc.1, hd⟩
    · exfalso; rw [hcm] at hc; simpa using hc.2
  · rintro ⟨c, hc, hd⟩ hnil
    have : c ∈ dc.filter (fun c => c != ',') := by
      rw [List.mem_filter]
      refine ⟨hc, ?_⟩
      have : c ≠ ',' := by
        intro hcc
        rw [hcc] at hd
        simp [Char.isDigit] at hd
      simpa using this
    rw [hnil] at this
    simp at this

theorem groupForm_parse {g : List Char} (h : GroupForm g) :
    (parseAmount (stripCommas g)).isSome = true ↔ g.any Char.isDigit = true := by
  obtain ⟨dc, ds, rfl, hdcne, hdc, hds⟩ := h
  have hip : ∀ c ∈ stripCommas dc, Char.isDigit c = true := stripCommas_digits hdc
  rcases hds with rfl | ⟨fs, rfl, hfsne, hfs⟩
  · rw [List.append_nil]
    unfold parseAmount
    dsimp only
    rw [takeWhile_all Char.isDigit (stripCommas dc) hip, List.drop_length]
    dsimp only
    by_cases hne : stripCommas dc = []
    · rw [if_pos (by simp [hne])]
      rw [← stripCommas_ne_iff hdc]
      simp [hne]
    · rw [if_neg (by simpa [List.isEmpty_iff] using hne)]
      rw [← stripCommas_ne_iff hdc]
      simp [hne]
  · have hsplit : stripCommas (dc ++ '.' :: fs) = stripCommas dc ++ '.' :: fs := by
      unfold stripCommas
      rw [List.filter_append]
      congr 1
      rw [List.filter_cons]
      rw [if_pos (by simp)]
      congr 1
      apply List.filter_eq_self.mpr
      intro c hc
      have : c ≠ ',' := by
        intro hcc
        have := hfs c hc
        rw [hcc] at this
        simp [Char.isDigit] at this
      simpa using this
    rw [hsplit]
    unfold parseAmount
    dsimp only
    rw [takeWhile_append_stop Char.isDigit (stripCommas dc) '.' fs hip (by simp [Char.isDigit])]
    have hdrop : (stripCommas dc ++ '.' :: fs).drop (stripCommas dc).length = '.' :: fs :=
      List.drop_left _ _
    rw [hdrop]
    show (if ((stripCommas dc).isEmpty && (List.takeWhile Char.isDigit fs).isEmpty) = true
        then none
        else some ((digitsToNat (stripCommas dc) : ℚ)
          + (digitsToNat (List.takeWhile Char.isDigit fs) : ℚ)
            / 10 ^ (List.takeWhile Char.isDigit fs).length)).isSome = true
      ↔ (dc ++ '.' :: fs).any Char.isDigit = true
    rw [takeWhile_all Char.isDigit fs hfs]
    rw [if_neg (by simp [List.isEmpty_iff, hfsne])]
    simp only [Option.isSome_some, true_iff]
    rw [List.any_eq_true]
    obtain ⟨c, hc⟩ := List.exists_mem_of_ne_nil _ hfsne
    exact ⟨c, by simp [hc], hfs c hc⟩


theorem bumpCount_weight : ∀ (c : List (String × Nat)) (k : String),
    ((bumpCount c k).map Prod.snd).sum = ((c.map Prod.snd)).sum + 1 := by
  intro c
  induction c with
  | nil => intro k; simp [bumpCount]
  | cons e rest ih =>
    intro k
    obtain ⟨s, n⟩ := e
    rw [bumpCount]
    by_cases hk : (s == k) = true
    · rw [if_pos hk]
      simp [Nat.add_assoc, Nat.add_comm 1]
    · rw [if_neg hk]
      simp only [List.map_cons, List.sum_cons, ih k]
      omega

theorem processMatch_effects (meta : EmailMeta) (st : SumState) (m : List Char × List Char) :
    (processMatch meta st m).details.length
        = st.details.length + (if (parseAmount (stripCommas m.2)).isSome then 1 else 0)
      ∧ (processMatch meta st m).total = st.total + ((parseAmount (stripCommas m.2)).getD 0)
      ∧ ((processMatch meta st m).counts.map Prod.snd).sum
        = (st.counts.map Prod.snd).sum + 1 := by
  unfold processMatch
  cases hp : parseAmount (stripCommas m.2) with
  | none =>
    refine ⟨by simp, by simp, ?_⟩
    exact bumpCount_weight st.counts _
  | some a =>
    refine ⟨by simp, by simp, ?_⟩
    exact bumpCount_weight st.counts _

theorem foldPM_effects (meta : EmailMeta) :
    ∀ (ms : List (List Char × List Char)) (st : SumState),
      ((ms.foldl (processMatch meta) st).details.length
        = st.details.length
          + (ms.filter (fun m => (parseAmount (stripCommas m.2)).isSome)).length)
      ∧ ((ms.foldl (processMatch meta) st).total
        = st.total + (ms.filterMap (fun m => parseAmount (stripCommas m.2))).sum)
      ∧ (((ms.foldl (processMatch meta) st).counts.map Prod.snd).sum
        = (st.counts.map Prod.snd).sum + ms.length) := by
  intro ms
  induction ms with
  | nil => intro st; simp
  | cons m rest ih =>
    intro st
    rw [List.foldl_cons]
    obtain ⟨ih1, ih2, ih3⟩ := ih (processMatch meta st m)
    obtain ⟨e1, e2, e3⟩ := processMatch_effects meta st m
    refine ⟨?_, ?_, ?_⟩
    · rw [ih1, e1, List.filter_cons]
      by_cases hp : (parseAmount (stripCommas m.2)).isSome
      · rw [if_pos (by simpa using hp)]
        simp [hp]
        omega
      · rw [if_neg (by simpa using hp)]
        simp [hp]
    · rw [ih2, e2, List.filterMap_cons]
      cases hp : parseAmount (stripCommas m.2) with
      | none => simp
      | some a => simp [List.sum_cons]; ring
    · rw [ih3, e3, List.length_cons]
      omega


theorem processEmail_effects (email : String) :
    ∀ (pats : List MoneyPat) (st : SumState),
      ((processEmail pats st email).details.length
        = st.details.length
          + ((pats.flatMap (fun p => scanPat p (searchTextOf email))).filter
              (fun m => (parseAmount (stripCommas m.2)).isSome)).length)
      ∧ ((processEmail pats st email).total
        = st.total + ((pats.flatMap (fun p => scanPat p (searchTextOf email))).filterMap
              (fun m => parseAmount (stripCommas m.2))).sum)
      ∧ (((processEmail pats st email).counts.map Prod.snd).sum
        = (st.counts.map Prod.snd).sum
          + (pats.flatMap (fun p => scanPat p (searchTextOf email))).length) := by
  intro pats
  induction pats with
  | nil => intro st; simp [processEmail]
  | cons p ps ih =>
    intro st
    have hstep : processEmail (p :: ps) st email
        = processEmail ps ((scanPat p (searchTextOf email)).foldl
            (processMatch (metaOf email)) st) email := by
      unfold processEmail
      rw [List.foldl_cons]
    rw [hstep]
    obtain ⟨ih1, ih2, ih3⟩ := ih ((scanPat p (searchTextOf email)).foldl
      (processMatch (metaOf email)) st)
    obtain ⟨e1, e2, e3⟩ := foldPM_effects (metaOf email) (scanPat p (searchTextOf email)) st
    refine ⟨?_, ?_, ?_⟩
    · rw [ih1, e1, List.flatMap_cons, List.filter_append, List.length_append]
      omega
    · rw [ih2, e2, List.flatMap_cons, List.filterMap_append, List.sum_append]
      ring
    · rw [ih3, e3, List.flatMap_cons, List.length_append]
      omega

theorem sumScan_effects (category : String) :
    ∀ (emails : List String) (st : SumState),
      ((emails.foldl (processEmail (patternsFor category)) st).details.length
        = st.details.length + ((allMatches emails category).filter
            (fun m => (parseAmount (stripCommas m.2)).isSome)).length)
      ∧ ((emails.foldl (processEmail (patternsFor category)) st).total
        = st.total + ((allMatches emails category).filterMap
            (fun m => parseAmount (stripCommas m.2))).sum)
      ∧ (((emails.foldl (processEmail (patternsFor category)) st).counts.map Prod.snd).sum
        = (st.counts.map Prod.snd).sum + (allMatches emails category).length) := by
  intro emails
  induction emails with
  | nil => intro st; simp [allMatches]
  | cons e rest ih =>
    intro st
    rw [List.foldl_cons]
    obtain ⟨ih1, ih2, ih3⟩ := ih (processEmail (patternsFor category) st e)
    obtain ⟨e1, e2, e3⟩ := processEmail_effects e (patternsFor category) st
    have hall : allMatches (e :: rest) category
        = (patternsFor category).flatMap (fun p => scanPat p (searchTextOf e))
          ++ allMatches rest category := by
      unfold allMatches
      rw [List.flatMap_cons]
    refine ⟨?_, ?_, ?_⟩
    · rw [ih1, e1, hall, List.filter_append, List.length_append]
      omega
    · rw [ih2, e2, hall, List.filterMap_append, List.sum_append]
      ring
    · rw [ih3, e3, hall, List.length_append]
      omega

/-- C10 (amended): every match produced by any category pattern has an
amount group consisting only of digits, commas and at most one decimal
point, and after comma stripping `parseFloat` returns `NaN` exactly when
the group contains no digit (an all-comma group is possible, so the
discard branch is reachable); the details list gains one entry per
successfully parsed match, the total is the sum of the successfully parsed
amounts, and the currency-frequency counter is incremented for every match
(its counts sum to the number of matches). -/
theorem claim_C10_amended (emails : List String) (category : String) :
    (∀ m ∈ allMatches emails category,
        (∀ c ∈ m.2, c.isDigit = true ∨ c = ',' ∨ c = '.') ∧
        m.2.count '.' ≤ 1 ∧
        ((parseAmount (stripCommas m.2)).isSome = true ↔ m.2.any Char.isDigit = true))
    ∧ (calculateSum emails category).details.length
        = ((allMatches emails category).filter
            (fun m => (parseAmount (stripCommas m.2)).isSome)).length
    ∧ (calculateSum emails category).total
        = ((allMatches emails category).filterMap
            (fun m => parseAmount (stripCommas m.2))).sum
    ∧ ((sumScan emails category).counts.map Prod.snd).sum
        = (allMatches emails category).length := by
  obtain ⟨e1, e2, e3⟩ := sumScan_effects category emails ⟨[], [], 0⟩
  refine ⟨?_, ?_, ?_, ?_⟩
  · intro m hm
    have hform := allMatches_form emails category m hm
    exact ⟨groupForm_chars hform, groupForm_dot_count hform, groupForm_parse hform⟩
  · simpa [calculateSum, sumScan] using e1
  · simpa [calculateSum, sumScan] using e2
  · simpa [sumScan] using e3

/-- C10 counterexample: the email content `Rs. ,,` produces a regex match
whose captured amount group is `,,`; comma stripping leaves the empty
string, `parseFloat` yields `NaN`, and the match is discarded from both
total and details (while its currency is still counted) — so the discard
branch is reachable and not every match contributes its amount. -/
theorem claim_C10_counterexample :
    allMatches ["From: a\nSubject: s\nDate: d\nContent: Rs. ,,"] "misc" ≠ [] ∧
    (calculateSum ["From: a\nSubject: s\nDate: d\nContent: Rs. ,,"] "misc").details = [] ∧
    (calculateSum ["From: a\nSubject: s\nDate: d\nContent: Rs. ,,"] "misc").total = 0 ∧
    ((sumScan ["From: a\nSubject: s\nDate: d\nContent: Rs. ,,"] "misc").counts.map
        Prod.snd).sum = 1 := by
  refine ⟨by decide, by decide, rfl, by decide⟩

/-- Witness for the amended C10 at the single concrete match captured from
`Rs. 4500`. -/
theorem claim_C10_witness :
    (∀ c ∈ ("Rs. 4500".data, "4500".data).2, c.isDigit = true ∨ c = ',' ∨ c = '.') ∧
    ("Rs. 4500".data, "4500".data).2.count '.' ≤ 1 ∧
    ((parseAmount (stripCommas ("Rs. 4500".data, "4500".data).2)).isSome = true
      ↔ ("Rs. 4500".data, "4500".data).2.any Char.isDigit = true) :=
  (claim_C10_amended ["From: a\nSubject: s\nDate: d\nContent: Rs. 4500"] "misc").1
    ("Rs. 4500".data, "4500".data) (by decide)

end EmailAgent
